import Mathlib

/-!
# AppControl: a verification development of `main.go`

`main.go` is a process gatekeeper: it loads an allow-list of process names
from `whitelist.txt`, repeatedly enumerates `/proc`, resolves every PID to its
name and reports every process whose name is not in the allow-list, appending
the name to `whitelist.txt`.

## Embedding

* Go strings are modelled as lists of Unicode code points (`Str`), i.e. the
  files involved are taken to be valid UTF-8 (as the allow-list format
  requires).  Byte lengths, where Go's library depends on them, are computed
  with `Char.utf8Size`.
* The operating system is an explicit parameter (`Env`): the listing of
  `/proc`, the outcome of `os.Stat`, the contents of the files under `/proc`
  and the I/O fault (if any) that hits a write to `whitelist.txt`.
* The program's global variables and the content of `whitelist.txt` form the
  `State`; console output and system calls are returned as a list of `Event`s.
* `procMutex` is not modelled: `blockUnauthorizedProcesses` is only ever called
  from the single loop of `main`. The goroutine that sets `sendSigKill` and
  the loop are interleaved as steps of a transition system (`Step`).
* A call of `os.Exit` ends the run: `loadWhiteList` then returns no map
  (`LoadResult`), and the signal handler of `main` is not a step.
* The keys of a Go map are visited in an unspecified order; the model keeps
  them in insertion order, and the statements about a pass hold for every
  order of the PIDs.
-/

namespace AppControl

/-- A Go `string`, as the list of its code points. -/
abbrev Str := List Char

/-! ## The parts of Go's standard library used by `main.go` -/

/-- Go `len(s)`: the number of bytes of the UTF-8 encoding of `s`. -/
def byteLen (s : Str) : Nat := (s.map Char.utf8Size).sum

/-- Go `unicode.IsSpace`: the code points with Unicode's White_Space property. -/
def isSpace (c : Char) : Bool :=
  let r := c.toNat
  (0x09 ≤ r && r ≤ 0x0D) || r == 0x20 || r == 0x85 || r == 0xA0 || r == 0x1680 ||
  (0x2000 ≤ r && r ≤ 0x200A) || r == 0x2028 || r == 0x2029 || r == 0x202F ||
  r == 0x205F || r == 0x3000

/-- Go `strings.TrimSpace`: `TrimRightFunc (TrimLeftFunc s IsSpace) IsSpace`. -/
def TrimSpace (s : Str) : Str :=
  ((s.dropWhile isSpace).reverse.dropWhile isSpace).reverse

/-- Go `strings.HasPrefix s p`. -/
def startsWith : Str → Str → Bool
  | _, [] => true
  | [], _ :: _ => false
  | x :: xs, y :: ys => x == y && startsWith xs ys

/-- Go `strings.Contains s substr` (`strings.Index s substr >= 0`): some
position of `s` starts an occurrence of `substr`. -/
def Contains : Str → Str → Bool
  | [], substr => substr.isEmpty
  | x :: xs, substr => startsWith (x :: xs) substr || Contains xs substr

/-- Go `strconv.IntSize` on the 64-bit platforms the program targets. -/
def IntSize : Nat := 64

/-- The value of a decimal digit, `none` for any other character
(the inner loop of `strconv.ParseUint` with base 10). -/
def digitVal (c : Char) : Option Nat :=
  if c.isDigit then some (c.toNat - 48) else none

/-- The digit loop of `strconv.ParseUint s 10`: `acc` is the value read so far;
`none` when a character is not a decimal digit. The range check is done by the
caller on the exact value. -/
def parseDigits : Str → Nat → Option Nat
  | [], acc => some acc
  | c :: cs, acc =>
    match digitVal c with
    | none => none
    | some d => parseDigits cs (acc * 10 + d)

/-- The second half of `strconv.ParseInt s 10 0`, after the sign has been
picked off: `body` is converted by `ParseUint` and the value is checked against
the range of `int`; `neg` tells whether the sign was a minus. `none` stands for
a returned error. -/
def parseSigned (neg : Bool) (body : Str) : Option Int :=
  if body.isEmpty then none
  else
    match parseDigits body 0 with
    | none => none
    | some un =>
      let cutoff : Nat := 2 ^ (IntSize - 1)
      if !neg && cutoff ≤ un then none
      else if neg && cutoff < un then none
      else some (if neg then - (un : Int) else (un : Int))

/-- Go `strconv.Atoi` (= `ParseInt s 10 0`), with `none` for a returned error:
an optional sign, then at least one decimal digit, and the value must fit
the type `int`. -/
def Atoi (s : Str) : Option Int :=
  match s with
  | [] => none
  | c :: rest =>
    if c == '+' then parseSigned false rest
    else if c == '-' then parseSigned true rest
    else parseSigned false (c :: rest)

/-- Go `bytes.IndexByte`: position of the first occurrence of `c`. -/
def IndexByte : Str → Char → Option Nat
  | [], _ => none
  | x :: xs, c => if x == c then some 0 else (IndexByte xs c).map (· + 1)

/-- Go `bufio.dropCR`: drop one trailing carriage return. -/
def dropCR (data : Str) : Str :=
  if data.getLast? = some '\r' then data.dropLast else data

/-- Go `bufio.MaxScanTokenSize`, the size the scanner's buffer may grow to. -/
def MaxScanTokenSize : Nat := 64 * 1024

/-- One call of `Scanner.Scan` with the split function `bufio.ScanLines`. -/
inductive ScanStep where
  /-- `Scan` returned false at the end of the input. -/
  | eof
  /-- `Scan` returned false with `ErrTooLong`: a line filled the buffer. -/
  | tooLong
  /-- `Scan` returned true: `advance` characters consumed, `text` is `Text()`. -/
  | token (advance : Nat) (text : Str)
  deriving DecidableEq

/-- One call of `Scanner.Scan` on the unread input `data`: `bufio.ScanLines`
takes the text up to the first newline (or up to the end of the input for a
last line without newline), `dropCR` removes a trailing carriage return; a line
whose bytes fill the whole buffer before its newline is seen ends the scan with
`ErrTooLong`. -/
def scanStep (data : Str) : ScanStep :=
  if data.isEmpty then ScanStep.eof
  else
    match IndexByte data '\n' with
    | some i =>
      if MaxScanTokenSize ≤ byteLen (data.take i) then ScanStep.tooLong
      else ScanStep.token (i + 1) (dropCR (data.take i))
    | none =>
      if MaxScanTokenSize ≤ byteLen data then ScanStep.tooLong
      else ScanStep.token data.length (dropCR data)

/-! ## Data model -/

/-- A Go `map[string]struct{}`: the list of its keys, without repetition. -/
abbrev StrSet := List Str

/-- Go `m[k] = struct{}{}`. -/
def StrSet.insertKey (m : StrSet) (k : Str) : StrSet :=
  if k ∈ m then m else m ++ [k]

/-- Go `_, ok := m[k]`. -/
def StrSet.has (m : StrSet) (k : Str) : Bool := decide (k ∈ m)

/-- How `loadWhiteList` ends. -/
inductive LoadResult where
  /-- The function returned the map. -/
  | loaded (whiteList : StrSet)
  /-- The file could not be opened: message and `os.Exit(1)`. -/
  | openFailed
  /-- The scanner reported an error: message and `os.Exit(1)`. -/
  | readFailed
  /-- The model's loop bound was reached (never happens, see `loadWhiteList_fuel`). -/
  | outOfFuel
  deriving DecidableEq

/-- The loop `for scanner.Scan() { ... }` of `loadWhiteList`, followed by the
check of `scanner.Err()`. `fuel` bounds the number of iterations. -/
def loadLoop : Nat → Str → StrSet → LoadResult
  | 0, _, _ => LoadResult.outOfFuel
  | fuel + 1, data, whiteList =>
    match scanStep data with
    | ScanStep.eof => LoadResult.loaded whiteList
    | ScanStep.tooLong => LoadResult.readFailed
    | ScanStep.token advance text =>
      let processName := TrimSpace text
      loadLoop fuel (data.drop advance)
        (if processName ≠ [] then whiteList.insertKey processName else whiteList)

/-- The function `loadWhiteList`; `file` is the content of `whitelist.txt`,
`none` when it cannot be opened. Every iteration consumes at least one
character, so `length + 1` iterations are enough. -/
def loadWhiteList (file : Option Str) : LoadResult :=
  match file with
  | none => LoadResult.openFailed
  | some content => loadLoop (content.length + 1) content []

/-! ## The operating system, as seen by the program -/

/-- Outcome of `os.Open("/proc")` followed by `dir.Readdirnames(0)`. -/
inductive DirResult where
  /-- `os.Open` returned an error. -/
  | openFails
  /-- `Readdirnames` returned an error. -/
  | readFails
  /-- The names of the entries of `/proc`. -/
  | names (files : List Str)
  deriving DecidableEq

/-- The I/O fault that a call of `writeStringToFile` meets, if it gets that far. -/
inductive Fault where
  /-- Every operation works. -/
  | noFault
  /-- `ioutil.ReadFile` fails with an error other than "does not exist". -/
  | readFails
  /-- `os.OpenFile` fails. -/
  | openFails
  /-- `file.WriteString` fails after `written` characters reached the file. -/
  | writeFails (written : Nat)
  deriving DecidableEq

/-- The environment of one step of the program. -/
structure Env where
  /-- The listing of `/proc`. -/
  procDir : DirResult
  /-- Whether `os.Stat path` succeeds. -/
  stat : Str → Bool
  /-- The result of `os.ReadFile path`, `none` for an error. -/
  readFile : Str → Option Str
  /-- The fault met by the write done while the PID `proc` is evaluated. -/
  writeFault : Str → Fault
  /-- Whether `syscall.Kill pid SIGKILL` succeeds. -/
  killOk : Int → Bool

/-- The error values returned by `getRunningProcesses`. -/
inductive ProcError where
  /-- Text "не удалось открыть /proc: ...". -/
  | cannotOpen
  /-- Text "ошибка чтения содержимого /proc: ...". -/
  | cannotRead
  deriving DecidableEq

/-- The error values returned by `writeStringToFile`. -/
inductive WriteError where
  /-- Text "ошибка при чтении файла: ...". -/
  | reading
  /-- Text "не удалось открыть файл для записи: ...". -/
  | opening
  /-- Text "ошибка при записи в файл: ...". -/
  | writing
  deriving DecidableEq

/-- What the program does that is visible from outside: the lines it prints
(each constructor is one `fmt.Print*` call of the source, with its arguments)
and the signals it sends. -/
inductive Event where
  /-- Line "Ошибка при получении списка запущенных процессов: err" (`main`). -/
  | enumError (err : ProcError)
  /-- Line "Ошибка при преобразовании PID pid: err"
  (`isNonKernelProcess`, `terminateProcess`). -/
  | convError (pid : Str)
  /-- Line "Ошибка при получении имени процесса proc: err". -/
  | nameError (proc : Str)
  /-- Line "Блокирован запуск неразрешенного процесса: procName (PID proc)":
  the violation notice. -/
  | blocked (procName proc : Str)
  /-- Line "Отправляем SIGKILL для процесса procName (PID proc)":
  the termination notice. -/
  | sigkillNotice (procName proc : Str)
  /-- Line "Ошибка: err" (`blockUnauthorizedProcesses`). -/
  | writeError (err : WriteError)
  /-- Line "Строка 'data' успешно добавлена в файл filename". -/
  | added (data filename : Str)
  /-- The system call `syscall.Kill pid SIGKILL` (`terminateProcess`). -/
  | kill (pid : Int)
  /-- Line "Ошибка при отправке сигнала SIGKILL процессу pid: err". -/
  | killError (pid : Str)
  deriving DecidableEq

/-- The global variables `allowedProcs` and `sendSigKill`, and the content of
the file `whitelist.txt` (`none`: the file does not exist). -/
structure State where
  allowedProcs : StrSet
  sendSigKill : Bool
  whitelistFile : Option Str
  deriving DecidableEq

/-! ## The functions of `main.go` -/

/-- The path `"/proc/" + dirName` given to `os.Stat` by `isNumericDir`. -/
def procPath (dirName : Str) : Str := "/proc/".toList ++ dirName

/-- The path `fmt.Sprintf("/proc/%s/comm", pid)` read by `getProcessName`. -/
def commPath (pid : Str) : Str := "/proc/".toList ++ pid ++ "/comm".toList

/-- The function `isNumericDir`: the entry must exist (`os.Stat`) and its name
must be accepted by `strconv.Atoi`. -/
def isNumericDir (env : Env) (dirName : Str) : Str × Bool :=
  if !env.stat (procPath dirName) then ([], false)
  else if (Atoi dirName).isSome then (dirName, true)
  else ([], false)

/-- The function `isNonKernelProcess`, with the line it prints. -/
def isNonKernelProcess (pid : Str) : Bool × List Event :=
  match Atoi pid with
  | none => (false, [Event.convError pid])
  | some pidInt =>
    let kernelThreshold : Int := 1000
    (decide (pidInt ≥ kernelThreshold), [])

/-- The filtering loop of `getRunningProcesses` over the entries of `/proc`;
`procs` is the map built so far. -/
def collectProcs (env : Env) : List Str → StrSet → StrSet × List Event
  | [], procs => (procs, [])
  | file :: files, procs =>
    if (isNumericDir env file).2 then
      let pid := (isNumericDir env file).1
      let r := collectProcs env files
        (if (isNonKernelProcess pid).1 then procs.insertKey pid else procs)
      (r.1, (isNonKernelProcess pid).2 ++ r.2)
    else collectProcs env files procs

/-- The function `getRunningProcesses`: the PIDs found, or the error, and the
lines printed on the way. Go leaves the order in which the keys of the map are
copied to the result unspecified; the model returns them in insertion order. -/
def getRunningProcesses (env : Env) : Except ProcError (List Str) × List Event :=
  match env.procDir with
  | DirResult.openFails => (Except.error ProcError.cannotOpen, [])
  | DirResult.readFails => (Except.error ProcError.cannotRead, [])
  | DirResult.names files =>
    (Except.ok (collectProcs env files []).1, (collectProcs env files []).2)

/-- The function `getProcessName`: the trimmed content of `/proc/<pid>/comm`,
`none` when the file cannot be read. -/
def getProcessName (env : Env) (pid : Str) : Option Str :=
  match env.readFile (commPath pid) with
  | none => none
  | some content => some (TrimSpace content)

/-- The function `terminateProcess` (defined in the source, called nowhere:
its only call is commented out). -/
def terminateProcess (env : Env) (pid : Str) : List Event :=
  match Atoi pid with
  | none => [Event.convError pid]
  | some pidInt =>
    if env.killOk pidInt then [Event.kill pidInt]
    else [Event.kill pidInt, Event.killError pid]

/-- What a call of `writeStringToFile` returns and leaves behind. -/
structure WriteOutcome where
  /-- The returned error, `none` for `nil`. -/
  err : Option WriteError
  /-- The content of the file after the call. -/
  file : Option Str
  /-- The lines printed. -/
  out : List Event
  deriving DecidableEq

/-- The function `writeStringToFile`; `file` is the content of `filename`
before the call. A file that does not exist reads as empty and is created by
`os.OpenFile` (flag `O_CREATE`); the write appends (flag `O_APPEND`). -/
def writeStringToFile (fault : Fault) (file : Option Str) (filename data : Str) :
    WriteOutcome :=
  if fault = Fault.readFails then ⟨some WriteError.reading, file, []⟩
  else
    let currentData : Str := file.getD []
    if Contains currentData data then ⟨none, file, []⟩
    else if fault = Fault.openFails then ⟨some WriteError.opening, file, []⟩
    else
      match fault with
      | Fault.writeFails written =>
        ⟨some WriteError.writing, some (currentData ++ (data ++ ['\n']).take written), []⟩
      | _ => ⟨none, some (currentData ++ (data ++ ['\n'])), [Event.added data filename]⟩

/-- The global variable `whiteListFile`, the file read by `loadWhiteList`. -/
def whiteListFile : Str := "whitelist.txt".toList

/-- The local variable `filename` of `blockUnauthorizedProcesses`, the file the
violations are written to: the same file as `whiteListFile`. -/
def logFilename : Str := "whitelist.txt".toList

/-- The body of the loop of `blockUnauthorizedProcesses` for one PID. -/
def evalProc (env : Env) (s : State) (proc : Str) : State × List Event :=
  match getProcessName env proc with
  | none => (s, [Event.nameError proc])
  | some procName =>
    if s.allowedProcs.has procName then (s, [])
    else
      let w := writeStringToFile (env.writeFault proc) s.whitelistFile logFilename procName
      ({ s with whitelistFile := w.file },
        [Event.blocked procName proc]
          ++ (if s.sendSigKill then [Event.sigkillNotice procName proc] else [])
          ++ w.out
          ++ (match w.err with
              | some e => [Event.writeError e]
              | none => []))

/-- The function `blockUnauthorizedProcesses`: the loop over `runningProcs`. -/
def blockUnauthorizedProcesses (env : Env) (s : State) : List Str → State × List Event
  | [] => (s, [])
  | proc :: rest =>
    let r := blockUnauthorizedProcesses env (evalProc env s proc).1 rest
    (r.1, (evalProc env s proc).2 ++ r.2)

/-- One iteration of the loop of `main`. -/
def loopIteration (env : Env) (s : State) : State × List Event :=
  match getRunningProcesses env with
  | (Except.error err, out) => (s, out ++ [Event.enumError err])
  | (Except.ok runningProcs, out) =>
    let r := blockUnauthorizedProcesses env s runningProcs
    (r.1, out ++ r.2)

/-- The state in which the loop of `main` starts: `allowedProcs` holds what
`loadWhiteList` read from `whitelist.txt`, `sendSigKill` has Go's zero value. -/
def initState (content : Str) (whiteList : StrSet) : State :=
  { allowedProcs := whiteList, sendSigKill := false, whitelistFile := some content }

/-- The states the program can start in. -/
def Init (s : State) : Prop :=
  ∃ content whiteList,
    loadWhiteList (some content) = LoadResult.loaded whiteList ∧ s = initState content whiteList

/-- The steps of the running program. -/
inductive Step : State → State → Prop where
  /-- The goroutine that sleeps ten seconds executes `sendSigKill = true`. -/
  | timerFires (s : State) : Step s { s with sendSigKill := true }
  /-- A whole iteration of the loop of `main`. -/
  | iteration (env : Env) (s : State) : Step s (loopIteration env s).1
  /-- One PID is evaluated by `blockUnauthorizedProcesses`. -/
  | evaluate (env : Env) (s : State) (proc : Str) : Step s (evalProc env s proc).1
  /-- A name is appended to the log by `writeStringToFile`. -/
  | append (fault : Fault) (s : State) (data : Str) :
    Step s { s with whitelistFile :=
      (writeStringToFile fault s.whitelistFile logFilename data).file }
  /-- Something else than the program rewrites `whitelist.txt`. -/
  | fileChanged (s : State) (file : Option Str) : Step s { s with whitelistFile := file }

/-- The states of a run: those reached from an initial state. -/
def Reachable (s : State) : Prop :=
  ∃ s0, Init s0 ∧ Relation.ReflTransGen Step s0 s

/-! ## Specification-side notions -/

/-- The lines of a text: the pieces between newline characters; a last piece
without newline is a line when it is not empty. (Specification side.) -/
def lines : Str → List Str
  | [] => []
  | c :: cs =>
    if c = '\n' then [] :: lines cs
    else
      match lines cs with
      | [] => [[c]]
      | l :: ls => (c :: l) :: ls

/-- The map after the loop of loadWhiteList has seen the lines ls. -/
def insertLines (whiteList : StrSet) (ls : List Str) : StrSet :=
  ls.foldl (fun wl l => if TrimSpace l ≠ [] then wl.insertKey (TrimSpace l) else wl) whiteList

/-- The number written by a string of decimal digits. -/
def decimalValue (digits : Str) : Nat :=
  digits.foldl (fun n c => n * 10 + (c.toNat - 48)) 0

/-- The names that procfs lists under `/proc`: a PID is written in decimal without a
sign, and it is far below the largest `int` (the kernel bounds PIDs by `pid_max`, at
most 2^22); the other entries (`self`, `cpuinfo`, ...) are not numbers. So no name
starts with a plus sign, and a name made of digits only has a value that fits `int`. -/
def ProcfsName (s : Str) : Prop :=
  s.head? ≠ some '+' ∧ ((∀ c ∈ s, c.isDigit = true) → decimalValue s < 2 ^ (IntSize - 1))

/-- The content of a file is a whole number of lines: empty, or ended by a newline. -/
def Terminated (c : Str) : Prop := c = [] ∨ c.getLast? = some '\n'

instance (c : Str) : Decidable (Terminated c) := by
  unfold Terminated; infer_instance

/-- The line printed by blockUnauthorizedProcesses after writeStringToFile returned. -/
def writeErrorLine (err : Option WriteError) : List Event :=
  match err with
  | some e => [Event.writeError e]
  | none => []

/-- The violation notices among the events. -/
def Event.isBlocked : Event → Bool
  | Event.blocked _ _ => true
  | _ => false

/-- The events that only `terminateProcess` and the error branch of
`isNonKernelProcess` produce. -/
def Event.ofTerminate : Event → Bool
  | Event.convError _ => true
  | Event.kill _ => true
  | Event.killError _ => true
  | _ => false

/-- The violations of a snapshot: the PIDs of the list whose name is resolved and is not
a key of the allow-list, each with its name. -/
def violations (env : Env) (allowed : StrSet) (procs : List Str) : List (Str × Str) :=
  procs.filterMap (fun proc =>
    match getProcessName env proc with
    | none => none
    | some procName => if procName ∈ allowed then none else some (procName, proc))

/-! ## Example inputs -/

/-- The files under /proc of the example snapshot: PID 1 is init, PID 1050 is bash,
PID 2200 is evil; nothing else can be read. -/
def snapshotFiles (path : Str) : Option Str :=
  if path = commPath "1".toList then some "init\n".toList
  else if path = commPath "1050".toList then some "bash\n".toList
  else if path = commPath "2200".toList then some "evil\n".toList
  else none

/-- The example snapshot: three processes and two entries of /proc that are not
processes; no I/O fault. -/
def snapshot : Env where
  procDir := DirResult.names
    ["1".toList, "1050".toList, "2200".toList, "self".toList, "cpuinfo".toList]
  stat := fun _ => true
  readFile := snapshotFiles
  writeFault := fun _ => Fault.noFault
  killOk := fun _ => true

/-- The state in which the program starts when whitelist.txt holds the two lines
init and bash. -/
def startState : State :=
  initState "init\nbash\n".toList ["init".toList, "bash".toList]

/-- An environment whose listing holds two names that procfs never lists: a signed
number and a number beyond the range of `int`. -/
def oddListing : Env where
  procDir := DirResult.names ["+1000".toList, "9223372036854775808".toList]
  stat := fun _ => true
  readFile := fun _ => none
  writeFault := fun _ => Fault.noFault
  killOk := fun _ => true

/-! ## Lemmas -/

/-! ### The scanner and `loadWhiteList` -/

/-- When the input has a newline, the scanner's first token is the first line. -/
theorem IndexByte_some_lines : ∀ (data : Str) (i : Nat), IndexByte data '\n' = some i →
    lines data = data.take i :: lines (data.drop (i + 1))
  | [], i, h => by simp [IndexByte] at h
  | x :: xs, i, h => by
    by_cases hx : x = '\n'
    · subst hx
      simp [IndexByte] at h
      subst h
      simp [lines]
    · have hx' : (x == '\n') = false := by simpa using hx
      simp only [IndexByte, hx', Bool.false_eq_true, if_false, Option.map_eq_some'] at h
      obtain ⟨j, hj, rfl⟩ := h
      have ih := IndexByte_some_lines xs j hj
      simp [lines, hx, ih]

/-- When the input has no newline and is not empty, it is its one line. -/
theorem IndexByte_none_lines : ∀ (data : Str), IndexByte data '\n' = none → data ≠ [] →
    lines data = [data]
  | [], _, h => absurd rfl h
  | x :: xs, h, _ => by
    by_cases hx : x = '\n'
    · subst hx
      simp [IndexByte] at h
    · have hx' : (x == '\n') = false := by simpa using hx
      simp only [IndexByte, hx', Bool.false_eq_true, if_false, Option.map_eq_none'] at h
      cases xs with
      | nil => simp [lines, hx]
      | cons y ys =>
        have ih := IndexByte_none_lines (y :: ys) h (by simp)
        simp [lines, hx] at ih ⊢
        rw [ih]

theorem IndexByte_lt : ∀ (data : Str) (i : Nat), IndexByte data '\n' = some i → i < data.length
  | [], i, h => by simp [IndexByte] at h
  | x :: xs, i, h => by
    by_cases hx : x = '\n'
    · subst hx
      simp [IndexByte] at h
      subst h
      simp
    · have hx' : (x == '\n') = false := by simpa using hx
      simp only [IndexByte, hx', Bool.false_eq_true, if_false, Option.map_eq_some'] at h
      obtain ⟨j, hj, rfl⟩ := h
      have := IndexByte_lt xs j hj
      simp
      omega

theorem TrimSpace_concat_space (x : Char) (hx : isSpace x = true) :
    ∀ l : Str, TrimSpace (l ++ [x]) = TrimSpace l
  | [] => by simp [TrimSpace, hx]
  | a :: l => by
    by_cases ha : isSpace a = true
    · have ih := TrimSpace_concat_space x hx l
      simp only [TrimSpace, List.cons_append, List.dropWhile_cons, ha, if_true] at ih ⊢
      exact ih
    · simp [TrimSpace, List.dropWhile_cons, ha, hx]

/-- Dropping the carriage return does not change the trimmed line. -/
theorem TrimSpace_dropCR (l : Str) : TrimSpace (dropCR l) = TrimSpace l := by
  unfold dropCR
  split
  · rename_i h
    have hl : l = l.dropLast ++ ['\r'] := by
      rcases List.eq_nil_or_concat l with h0 | ⟨l', a, rfl⟩
      · subst h0; simp at h
      · simp at h; subst h; simp
    conv_rhs => rw [hl]
    exact (TrimSpace_concat_space '\r' (by decide) _).symm
  · rfl

theorem mem_insertKey (m : StrSet) (k n : Str) : n ∈ m.insertKey k ↔ n ∈ m ∨ n = k := by
  unfold StrSet.insertKey
  split
  · constructor
    · intro h; exact Or.inl h
    · rintro (h | rfl)
      · exact h
      · assumption
  · simp

theorem mem_insertLines : ∀ (ls : List Str) (wl : StrSet) (n : Str),
    n ∈ insertLines wl ls ↔ n ∈ wl ∨ (n ≠ [] ∧ ∃ l ∈ ls, TrimSpace l = n)
  | [], wl, n => by simp [insertLines]
  | l :: ls, wl, n => by
    have ih := mem_insertLines ls
      (if TrimSpace l ≠ [] then wl.insertKey (TrimSpace l) else wl) n
    simp only [insertLines, List.foldl_cons] at ih ⊢
    rw [ih]
    by_cases hl : TrimSpace l = []
    · simp only [hl, ne_eq, not_true_eq_false, if_false, List.mem_cons, exists_eq_or_imp]
      constructor
      · rintro (h | ⟨h1, h2⟩)
        · exact Or.inl h
        · exact Or.inr ⟨h1, Or.inr h2⟩
      · rintro (h | ⟨h1, h2 | h2⟩)
        · exact Or.inl h
        · exact absurd h2.symm h1
        · exact Or.inr ⟨h1, h2⟩
    · simp only [ne_eq, hl, not_false_eq_true, if_true, mem_insertKey, List.mem_cons,
        exists_eq_or_imp]
      constructor
      · rintro ((h | h) | ⟨h1, h2⟩)
        · exact Or.inl h
        · exact Or.inr ⟨by rw [h]; exact hl, Or.inl h.symm⟩
        · exact Or.inr ⟨h1, Or.inr h2⟩
      · rintro (h | ⟨h1, h2 | h2⟩)
        · exact Or.inl (Or.inl h)
        · exact Or.inl (Or.inr h2.symm)
        · exact Or.inr ⟨h1, h2⟩

/-- With enough fuel the loop of `loadWhiteList` inserts the trimmed lines of the
input, unless a line is too long for the scanner. -/
theorem loadLoop_eq : ∀ (fuel : Nat) (data : Str) (wl : StrSet), data.length < fuel →
    loadLoop fuel data wl =
      if ∀ l ∈ lines data, byteLen l < MaxScanTokenSize
      then LoadResult.loaded (insertLines wl (lines data))
      else LoadResult.readFailed
  | 0, _, _, h => absurd h (Nat.not_lt_zero _)
  | fuel + 1, data, wl, h => by
    cases hd : data with
    | nil => simp [loadLoop, scanStep, lines, insertLines]
    | cons x xs =>
      rw [← hd]
      have hne : data ≠ [] := by simp [hd]
      have hemp : data.isEmpty = false := by simp [hd]
      have hpos : 0 < data.length := by simp [hd]
      cases hi : IndexByte data '\n' with
      | none =>
        have hl := IndexByte_none_lines data hi hne
        by_cases hlong : MaxScanTokenSize ≤ byteLen data
        · have : ¬ byteLen data < MaxScanTokenSize := by omega
          simp [loadLoop, scanStep, hemp, hi, hlong, hl, this]
        · have hlt : byteLen data < MaxScanTokenSize := by omega
          have ih := loadLoop_eq fuel (data.drop data.length)
            (if TrimSpace (dropCR data) ≠ [] then wl.insertKey (TrimSpace (dropCR data)) else wl)
            (by rw [List.length_drop]; omega)
          simp only [loadLoop, scanStep, hemp, hi, hlong, hl, Bool.false_eq_true, if_false]
          rw [ih]
          simp [lines, insertLines, hlt, TrimSpace_dropCR]
      | some i =>
        have hl := IndexByte_some_lines data i hi
        have hlen := IndexByte_lt data i hi
        by_cases hlong : MaxScanTokenSize ≤ byteLen (data.take i)
        · have : ¬ byteLen (data.take i) < MaxScanTokenSize := by omega
          simp [loadLoop, scanStep, hemp, hi, hlong, hl, this]
        · have hlt : byteLen (data.take i) < MaxScanTokenSize := by omega
          have ih := loadLoop_eq fuel (data.drop (i + 1))
            (if TrimSpace (dropCR (data.take i)) ≠ []
              then wl.insertKey (TrimSpace (dropCR (data.take i))) else wl)
            (by rw [List.length_drop]; omega)
          simp only [loadLoop, scanStep, hemp, hi, hlong, hl, Bool.false_eq_true, if_false]
          rw [ih]
          simp [insertLines, hlt, TrimSpace_dropCR]

/-- The result of `loadWhiteList` in terms of the lines of the file. -/
theorem loadWhiteList_eq (content : Str) :
    loadWhiteList (some content) =
      if ∀ l ∈ lines content, byteLen l < MaxScanTokenSize
      then LoadResult.loaded (insertLines [] (lines content))
      else LoadResult.readFailed :=
  loadLoop_eq _ _ _ (Nat.lt_succ_self _)

/-! ### `strconv.Atoi` and the enumeration of `/proc` -/

theorem parseDigits_eq : ∀ (s : Str) (acc : Nat),
    parseDigits s acc =
      if ∀ c ∈ s, c.isDigit = true
      then some (s.foldl (fun n c => n * 10 + (c.toNat - 48)) acc) else none
  | [], acc => by simp [parseDigits]
  | c :: cs, acc => by
    by_cases hc : c.isDigit = true
    · simp only [parseDigits, digitVal, hc, if_true, parseDigits_eq cs, List.mem_cons,
        forall_eq_or_imp, true_and, List.foldl_cons]
    · simp [parseDigits, digitVal, hc]

theorem parseSigned_false (body : Str) (v : Int) :
    parseSigned false body = some v ↔
      body ≠ [] ∧ (∀ c ∈ body, c.isDigit = true) ∧
        decimalValue body < 2 ^ (IntSize - 1) ∧ v = (decimalValue body : Int) := by
  unfold parseSigned
  generalize 2 ^ (IntSize - 1) = cutoff
  by_cases hne : body = []
  · simp [hne]
  · by_cases hall : ∀ c ∈ body, c.isDigit = true
    · rw [parseDigits_eq, if_pos hall]
      change (if body.isEmpty = true then none
        else if (!false && decide (cutoff ≤ decimalValue body)) = true then none
        else if (false && decide (cutoff < decimalValue body)) = true then none
        else some (if false = true then - (decimalValue body : Int) else (decimalValue body : Int)))
          = some v ↔ _
      by_cases hlt : decimalValue body < cutoff
      · have hle : ¬ (cutoff ≤ decimalValue body) := by omega
        simp only [List.isEmpty_iff, hne, if_false, Bool.not_false, Bool.true_and,
          decide_eq_true_eq, hle, Bool.false_and, Bool.false_eq_true, Option.some.injEq]
        constructor
        · intro h; exact ⟨hne, hall, hlt, h.symm⟩
        · intro h; exact h.2.2.2.symm
      · have hle : cutoff ≤ decimalValue body := by omega
        simp only [List.isEmpty_iff, hne, if_false, Bool.not_false, Bool.true_and,
          decide_eq_true_eq, hle, if_true]
        constructor
        · intro h; exact absurd h (by simp)
        · intro h; exact absurd h.2.2.1 hlt
    · rw [parseDigits_eq, if_neg hall]
      simp [hne, hall]

theorem parseSigned_true_le (body : Str) (v : Int) (h : parseSigned true body = some v) :
    v ≤ 0 := by
  unfold parseSigned at h
  by_cases hne : body = []
  · simp [hne] at h
  · cases hp : parseDigits body 0 with
    | none => simp [hne, hp] at h
    | some un =>
      simp only [List.isEmpty_iff, hne, if_false, hp, Bool.not_true, Bool.false_and,
        Bool.false_eq_true, Bool.true_and, decide_eq_true_eq, if_true] at h
      split at h
      · exact absurd h (by simp)
      · simp only [Option.some.injEq] at h
        omega

/-- The strings that `strconv.Atoi` accepts with a value of at least 1000. -/
theorem Atoi_ge_iff (s : Str) :
    (∃ v : Int, Atoi s = some v ∧ 1000 ≤ v) ↔
      ∃ digits : Str, (s = digits ∨ s = '+' :: digits) ∧ digits ≠ [] ∧
        (∀ c ∈ digits, c.isDigit = true) ∧ 1000 ≤ decimalValue digits ∧
        decimalValue digits < 2 ^ (IntSize - 1) := by
  cases s with
  | nil => simp [Atoi]
  | cons c rest =>
    by_cases hplus : c = '+'
    · subst hplus
      have hnd : Char.isDigit '+' = false := by decide
      simp only [Atoi, show ('+' == '+') = true by decide, if_true]
      constructor
      · rintro ⟨v, hv, hge⟩
        obtain ⟨h1, h2, h3, h4⟩ := (parseSigned_false rest v).1 hv
        exact ⟨rest, Or.inr rfl, h1, h2, by omega, h3⟩
      · rintro ⟨digits, hs | hs, hne, hall, hge, hlt⟩
        · have : Char.isDigit '+' = true := hall '+' (by rw [← hs]; simp)
          rw [hnd] at this
          exact absurd this (by simp)
        · simp only [List.cons.injEq, true_and] at hs
          subst hs
          exact ⟨_, (parseSigned_false rest _).2 ⟨hne, hall, hlt, rfl⟩, by omega⟩
    · by_cases hminus : c = '-'
      · subst hminus
        have hnd : Char.isDigit '-' = false := by decide
        simp only [Atoi, show ('-' == '+') = false by decide, show ('-' == '-') = true by decide,
          if_true, Bool.false_eq_true, if_false]
        constructor
        · rintro ⟨v, hv, hge⟩
          have := parseSigned_true_le rest v hv
          omega
        · rintro ⟨digits, hs | hs, hne, hall, hge, hlt⟩
          · have : Char.isDigit '-' = true := hall '-' (by rw [← hs]; simp)
            rw [hnd] at this
            exact absurd this (by simp)
          · simp at hs
      · have h1 : (c == '+') = false := by simpa using hplus
        have h2 : (c == '-') = false := by simpa using hminus
        simp only [Atoi, h1, h2, Bool.false_eq_true, if_false]
        constructor
        · rintro ⟨v, hv, hge⟩
          obtain ⟨h1, h2, h3, h4⟩ := (parseSigned_false (c :: rest) v).1 hv
          exact ⟨c :: rest, Or.inl rfl, h1, h2, by omega, h3⟩
        · rintro ⟨digits, hs | hs, hne, hall, hge, hlt⟩
          · subst hs
            exact ⟨_, (parseSigned_false (c :: rest) _).2 ⟨hne, hall, hlt, rfl⟩, by omega⟩
          · simp only [List.cons.injEq] at hs
            exact absurd hs.1 hplus

theorem isNumericDir_snd (env : Env) (file : Str) :
    (isNumericDir env file).2 = true ↔
      env.stat (procPath file) = true ∧ ∃ v, Atoi file = some v := by
  unfold isNumericDir
  by_cases hs : env.stat (procPath file) = true
  · cases ha : Atoi file <;> simp [hs]
  · simp [hs]

theorem isNumericDir_fst (env : Env) (file : Str) (h : (isNumericDir env file).2 = true) :
    (isNumericDir env file).1 = file := by
  unfold isNumericDir at h ⊢
  by_cases hs : env.stat (procPath file) = true
  · cases ha : Atoi file <;> simp [hs, ha] at h ⊢
  · simp [hs] at h

theorem isNonKernelProcess_fst (pid : Str) :
    (isNonKernelProcess pid).1 = true ↔ ∃ v, Atoi pid = some v ∧ 1000 ≤ v := by
  unfold isNonKernelProcess
  cases ha : Atoi pid <;> simp

theorem isNonKernelProcess_snd (pid : Str) (v : Int) (h : Atoi pid = some v) :
    (isNonKernelProcess pid).2 = [] := by
  simp [isNonKernelProcess, h]

theorem collectProcs_out (env : Env) : ∀ (files : List Str) (procs : StrSet),
    (collectProcs env files procs).2 = []
  | [], procs => rfl
  | file :: files, procs => by
    by_cases hn : (isNumericDir env file).2 = true
    · obtain ⟨_, v, hv⟩ := (isNumericDir_snd env file).1 hn
      simp only [collectProcs, hn, if_true, isNumericDir_fst env file hn,
        isNonKernelProcess_snd file v hv, List.nil_append]
      exact collectProcs_out env files _
    · simp only [collectProcs, hn, Bool.false_eq_true, if_false]
      exact collectProcs_out env files procs

/-- The keys of the map built by the loop of `getRunningProcesses`. -/
theorem mem_collectProcs (env : Env) (s : Str) : ∀ (files : List Str) (procs : StrSet),
    s ∈ (collectProcs env files procs).1 ↔
      s ∈ procs ∨ (s ∈ files ∧ env.stat (procPath s) = true ∧
        ∃ v, Atoi s = some v ∧ 1000 ≤ v)
  | [], procs => by simp [collectProcs]
  | file :: files, procs => by
    by_cases hn : (isNumericDir env file).2 = true
    · have hstat := (isNumericDir_snd env file).1 hn
      simp only [collectProcs, hn, if_true, isNumericDir_fst env file hn]
      rw [mem_collectProcs env s files]
      by_cases hk : (isNonKernelProcess file).1 = true
      · have hk' := (isNonKernelProcess_fst file).1 hk
        simp only [hk, if_true, mem_insertKey, List.mem_cons]
        constructor
        · rintro ((h | h) | h)
          · exact Or.inl h
          · subst h; exact Or.inr ⟨Or.inl rfl, hstat.1, hk'⟩
          · exact Or.inr ⟨Or.inr h.1, h.2⟩
        · rintro (h | ⟨h | h, h2⟩)
          · exact Or.inl (Or.inl h)
          · exact Or.inl (Or.inr h)
          · exact Or.inr ⟨h, h2⟩
      · have hk' : ¬ ∃ v, Atoi file = some v ∧ 1000 ≤ v :=
          fun h => hk ((isNonKernelProcess_fst file).2 h)
        simp only [hk, Bool.false_eq_true, if_false, List.mem_cons]
        constructor
        · rintro (h | h)
          · exact Or.inl h
          · exact Or.inr ⟨Or.inr h.1, h.2⟩
        · rintro (h | ⟨h | h, h2⟩)
          · exact Or.inl h
          · subst h; exact absurd h2.2 hk'
          · exact Or.inr ⟨h, h2⟩
    · have hn' : ¬ (env.stat (procPath file) = true ∧ ∃ v, Atoi file = some v) :=
        fun h => hn ((isNumericDir_snd env file).2 h)
      simp only [collectProcs, hn, Bool.false_eq_true, if_false, List.mem_cons]
      rw [mem_collectProcs env s files]
      constructor
      · rintro (h | h)
        · exact Or.inl h
        · exact Or.inr ⟨Or.inr h.1, h.2⟩
      · rintro (h | ⟨h | h, h2, v, hv, _⟩)
        · exact Or.inl h
        · subst h; exact absurd ⟨h2, v, hv⟩ hn'
        · exact Or.inr ⟨h, h2, v, hv, ‹_›⟩

theorem getRunningProcesses_names (env : Env) (files : List Str)
    (hdir : env.procDir = DirResult.names files) :
    getRunningProcesses env = (Except.ok (collectProcs env files []).1, []) := by
  simp [getRunningProcesses, hdir, collectProcs_out]

/-- The entries returned by `getRunningProcesses`, for any listing: those that exist and
that `strconv.Atoi` accepts with a value of at least 1000. -/
theorem getRunningProcesses_mem (env : Env) (files : List Str) (s : Str)
    (hdir : env.procDir = DirResult.names files) (hs : s ∈ files)
    (hstat : env.stat (procPath s) = true) :
    ∃ procs, getRunningProcesses env = (Except.ok procs, []) ∧
      (s ∈ procs ↔
        ∃ digits : Str, (s = digits ∨ s = '+' :: digits) ∧ digits ≠ [] ∧
          (∀ c ∈ digits, c.isDigit = true) ∧ 1000 ≤ decimalValue digits ∧
          decimalValue digits < 2 ^ (IntSize - 1)) ∧
      (∀ v : Int, Atoi s = some v → v < 1000 → s ∉ procs) := by
  refine ⟨_, getRunningProcesses_names env files hdir, ?_, ?_⟩
  · rw [mem_collectProcs, ← Atoi_ge_iff]
    simp [hs, hstat]
  · intro v hv hlt hmem
    rw [mem_collectProcs] at hmem
    rcases hmem with h | ⟨_, _, w, hw, hge⟩
    · simp at h
    · rw [hv] at hw
      cases hw
      omega

/-- For a name that procfs lists, `strconv.Atoi` accepts it with a value of at least
1000 exactly when it is made of decimal digits only and is worth at least 1000. -/
theorem procfsName_numeric (s : Str) (hname : ProcfsName s) :
    (∃ digits : Str, (s = digits ∨ s = '+' :: digits) ∧ digits ≠ [] ∧
        (∀ c ∈ digits, c.isDigit = true) ∧ 1000 ≤ decimalValue digits ∧
        decimalValue digits < 2 ^ (IntSize - 1)) ↔
      (s ≠ [] ∧ ∀ c ∈ s, c.isDigit = true) ∧ 1000 ≤ decimalValue s := by
  constructor
  · rintro ⟨digits, hs | hs, hne, hall, hge, _⟩
    · subst hs
      exact ⟨⟨hne, hall⟩, hge⟩
    · exact absurd (by rw [hs]; rfl) hname.1
  · rintro ⟨⟨hne, hall⟩, hge⟩
    exact ⟨s, Or.inl rfl, hne, hall, hge, hname.2 hall⟩

/-- The function `isNumericDir` looks at the environment through `os.Stat` only. -/
theorem isNumericDir_congr (env env2 : Env) (hstat : env2.stat = env.stat) (file : Str) :
    isNumericDir env2 file = isNumericDir env file := by
  simp [isNumericDir, hstat]

/-- The loop of `getRunningProcesses` looks at the environment through `os.Stat` only. -/
theorem collectProcs_congr (env env2 : Env) (hstat : env2.stat = env.stat) :
    ∀ (files : List Str) (procs : StrSet),
      collectProcs env2 files procs = collectProcs env files procs
  | [], procs => rfl
  | file :: files, procs => by
    simp only [collectProcs, isNumericDir_congr env env2 hstat,
      collectProcs_congr env env2 hstat files]

/-- The result of `getRunningProcesses` depends on the listing of `/proc` and on
`os.Stat` only: the files under `/proc`, hence the names of the processes, are not read. -/
theorem getRunningProcesses_congr (env env2 : Env) (hdir : env2.procDir = env.procDir)
    (hstat : env2.stat = env.stat) :
    getRunningProcesses env2 = getRunningProcesses env := by
  unfold getRunningProcesses
  rw [hdir]
  cases env.procDir with
  | openFails => rfl
  | readFails => rfl
  | names files => simp only [collectProcs_congr env env2 hstat]

/-! ### `strings.Contains` and `writeStringToFile` -/

theorem startsWith_iff : ∀ (s p : Str), startsWith s p = true ↔ p <+: s
  | _, [] => by simp [startsWith]
  | [], y :: ys => by simp [startsWith]
  | x :: xs, y :: ys => by
    simp only [startsWith, Bool.and_eq_true, beq_iff_eq, startsWith_iff xs ys]
    rw [List.cons_prefix_cons]
    constructor
    · rintro ⟨h1, h2⟩; exact ⟨h1.symm, h2⟩
    · rintro ⟨h1, h2⟩; exact ⟨h1.symm, h2⟩

/-- The function `Contains` decides whether `substr` occurs in `s`. -/
theorem Contains_iff : ∀ (s substr : Str), Contains s substr = true ↔ substr <:+: s
  | [], substr => by simp [Contains]
  | x :: xs, substr => by
    simp only [Contains, Bool.or_eq_true, startsWith_iff, Contains_iff xs substr]
    rw [List.infix_cons_iff]

/-- What a call of `writeStringToFile` without error does. -/
theorem writeStringToFile_ok (fault : Fault) (file : Option Str) (filename data : Str)
    (hok : (writeStringToFile fault file filename data).err = none) :
    writeStringToFile fault file filename data =
      if Contains (file.getD []) data = true then ⟨none, file, []⟩
      else ⟨none, some (file.getD [] ++ (data ++ ['\n'])), [Event.added data filename]⟩ := by
  unfold writeStringToFile at hok ⊢
  by_cases hc : Contains (file.getD []) data = true
  · cases fault <;> simp [hc] at hok ⊢
  · cases fault <;> simp [hc] at hok ⊢

/-! ### Lines of a file -/

theorem lines_eq_nil : ∀ (c : Str), lines c = [] ↔ c = []
  | [] => by simp [lines]
  | x :: xs => by
    by_cases hx : x = '\n'
    · simp [lines, hx]
    · cases h : lines xs <;> simp [lines, hx, h]

theorem lines_newline_cons (cs : Str) : lines ('\n' :: cs) = [] :: lines cs := by
  rw [lines, if_pos rfl]

theorem lines_append_of_terminated : ∀ (c d : Str), c.getLast? = some '\n' →
    lines (c ++ d) = lines c ++ lines d
  | [], d, h => by simp at h
  | [x], d, h => by
    simp at h
    subst h
    simp [lines]
  | x :: y :: ys, d, h => by
    have h' : (y :: ys).getLast? = some '\n' := by
      simpa [List.getLast?_cons_cons] using h
    have ih := lines_append_of_terminated (y :: ys) d h'
    have hne : lines (y :: ys) ≠ [] := fun h0 => by
      have := (lines_eq_nil (y :: ys)).1 h0
      simp at this
    by_cases hx : x = '\n'
    · subst hx
      show lines ('\n' :: ((y :: ys) ++ d)) = lines ('\n' :: y :: ys) ++ lines d
      rw [lines_newline_cons, lines_newline_cons, ih]
      rfl
    · show lines (x :: ((y :: ys) ++ d)) = lines (x :: y :: ys) ++ lines d
      cases hl : lines (y :: ys) with
      | nil => exact absurd hl hne
      | cons l ls =>
        rw [hl] at ih
        have e1 : lines (x :: ((y :: ys) ++ d)) = (x :: l) :: (ls ++ lines d) := by
          rw [lines, if_neg hx, ih]
          rfl
        have e2 : lines (x :: y :: ys) = (x :: l) :: ls := by
          rw [lines, if_neg hx, hl]
        rw [e1, e2]
        rfl

theorem lines_single : ∀ (n : Str), '\n' ∉ n → lines (n ++ ['\n']) = [n]
  | [], _ => by simp [lines]
  | x :: xs, h => by
    have hx : x ≠ '\n' := fun e => h (by simp [e])
    have hxs : '\n' ∉ xs := fun e => h (by simp [e])
    have ih := lines_single xs hxs
    show lines (x :: (xs ++ ['\n'])) = [x :: xs]
    rw [lines, if_neg hx, ih]

/-- Every line of a text occurs in the text. -/
theorem mem_lines_sub : ∀ (c l : Str), l ∈ lines c → l <:+: c
  | [], l, h => by simp [lines] at h
  | x :: xs, l, h => by
    by_cases hx : x = '\n'
    · simp only [lines, hx, if_true, List.mem_cons] at h
      rcases h with h | h
      · subst h; exact List.nil_infix
      · exact (mem_lines_sub xs l h).trans (List.infix_cons List.infix_rfl)
    · rw [lines, if_neg hx] at h
      cases hl : lines xs with
      | nil =>
        rw [hl] at h
        simp at h
        subst h
        have : xs = [] := (lines_eq_nil xs).1 hl
        subst this
        exact List.infix_rfl
      | cons l0 ls =>
        rw [hl] at h
        simp only [List.mem_cons] at h
        rcases h with h | h
        · subst h
          -- l0 is the first line of xs, hence a prefix of xs
          have hp : ∀ (ys : Str) (m : Str) (ms : List Str), lines ys = m :: ms → m <+: ys := by
            intro ys
            induction ys with
            | nil => intro m ms hm; simp [lines] at hm
            | cons y ys ihy =>
              intro m ms hm
              by_cases hy : y = '\n'
              · simp only [lines, hy, if_true, List.cons.injEq] at hm
                rw [← hm.1]; exact List.nil_prefix
              · rw [lines, if_neg hy] at hm
                cases hl2 : lines ys with
                | nil =>
                  rw [hl2] at hm
                  simp at hm
                  rw [← hm.1]
                  have : ys = [] := (lines_eq_nil ys).1 hl2
                  subst this
                  exact List.prefix_rfl
                | cons m2 ms2 =>
                  rw [hl2] at hm
                  simp only [List.cons.injEq] at hm
                  rw [← hm.1]
                  exact (List.cons_prefix_cons).2 ⟨rfl, ihy m2 ms2 hl2⟩
          exact ((List.cons_prefix_cons).2 ⟨rfl, hp xs l0 ls hl⟩).isInfix
        · have : l ∈ lines xs := by rw [hl]; exact List.mem_cons_of_mem _ h
          exact (mem_lines_sub xs l this).trans (List.infix_cons List.infix_rfl)

/-- Appending a line to a whole number of lines adds that line. -/
theorem lines_append_line (c n : Str) (hc : Terminated c) (hn : '\n' ∉ n) :
    lines (c ++ n ++ ['\n']) = lines c ++ [n] := by
  rw [List.append_assoc]
  rcases hc with hc | hc
  · subst hc; simp [lines, lines_single n hn]
  · rw [lines_append_of_terminated c _ hc, lines_single n hn]

/-! ### A pass of `blockUnauthorizedProcesses` -/

theorem evalProc_unresolved (env : Env) (s : State) (proc : Str)
    (h : getProcessName env proc = none) :
    evalProc env s proc = (s, [Event.nameError proc]) := by
  simp [evalProc, h]

theorem evalProc_allowed (env : Env) (s : State) (proc procName : Str)
    (h : getProcessName env proc = some procName) (ha : s.allowedProcs.has procName = true) :
    evalProc env s proc = (s, []) := by
  simp [evalProc, h, ha]

theorem evalProc_violation (env : Env) (s : State) (proc procName : Str)
    (h : getProcessName env proc = some procName) (ha : s.allowedProcs.has procName = false) :
    evalProc env s proc =
      ({ s with whitelistFile :=
          (writeStringToFile (env.writeFault proc) s.whitelistFile logFilename procName).file },
        [Event.blocked procName proc]
          ++ (if s.sendSigKill then [Event.sigkillNotice procName proc] else [])
          ++ (writeStringToFile (env.writeFault proc) s.whitelistFile logFilename procName).out
          ++ writeErrorLine (writeStringToFile (env.writeFault proc) s.whitelistFile logFilename procName).err) := by
  simp only [evalProc, h, ha, Bool.false_eq_true, if_false, writeErrorLine]

theorem evalProc_frame (env : Env) (s : State) (proc : Str) :
    (evalProc env s proc).1.allowedProcs = s.allowedProcs ∧
      (evalProc env s proc).1.sendSigKill = s.sendSigKill := by
  cases h : getProcessName env proc with
  | none => simp [evalProc, h]
  | some procName =>
    cases ha : s.allowedProcs.has procName <;> simp [evalProc, h, ha]

/-- A pass does not assign the global variables. -/
theorem block_frame (env : Env) : ∀ (procs : List Str) (s : State),
    (blockUnauthorizedProcesses env s procs).1.allowedProcs = s.allowedProcs ∧
      (blockUnauthorizedProcesses env s procs).1.sendSigKill = s.sendSigKill
  | [], s => by simp [blockUnauthorizedProcesses]
  | proc :: rest, s => by
    have ih := block_frame env rest (evalProc env s proc).1
    have h1 := evalProc_frame env s proc
    simp only [blockUnauthorizedProcesses]
    exact ⟨ih.1.trans h1.1, ih.2.trans h1.2⟩

/-- A pass over two lists in a row is the pass over the first, then over the second. -/
theorem block_append (env : Env) : ∀ (pre post : List Str) (s : State),
    blockUnauthorizedProcesses env s (pre ++ post) =
      ((blockUnauthorizedProcesses env (blockUnauthorizedProcesses env s pre).1 post).1,
        (blockUnauthorizedProcesses env s pre).2 ++
          (blockUnauthorizedProcesses env (blockUnauthorizedProcesses env s pre).1 post).2)
  | [], post, s => by simp [blockUnauthorizedProcesses]
  | proc :: pre, post, s => by
    have ih := block_append env pre post (evalProc env s proc).1
    show ((blockUnauthorizedProcesses env (evalProc env s proc).1 (pre ++ post)).1,
        (evalProc env s proc).2 ++
          (blockUnauthorizedProcesses env (evalProc env s proc).1 (pre ++ post)).2) = _
    rw [ih]
    simp only [blockUnauthorizedProcesses, List.append_assoc]

theorem writeStringToFile_out (fault : Fault) (file : Option Str) (filename data : Str) :
    ∀ e ∈ (writeStringToFile fault file filename data).out, e = Event.added data filename := by
  intro e he
  unfold writeStringToFile at he
  by_cases hc : Contains (file.getD []) data = true
  · cases fault <;> simp [hc] at he
  · cases fault <;> simp [hc] at he
    all_goals exact he

theorem evalProc_blocked_filter (env : Env) (s : State) (proc : Str) :
    (evalProc env s proc).2.filter Event.isBlocked =
      (violations env s.allowedProcs [proc]).map (fun v => Event.blocked v.1 v.2) := by
  cases h : getProcessName env proc with
  | none => simp [evalProc, h, violations, Event.isBlocked]
  | some procName =>
    by_cases ha : procName ∈ s.allowedProcs
    · have ha' : s.allowedProcs.has procName = true := by simp [StrSet.has, ha]
      simp [evalProc, h, ha', ha, violations]
    · have ha' : s.allowedProcs.has procName = false := by simp [StrSet.has, ha]
      rw [evalProc_violation env s proc procName h ha']
      have hw : (writeStringToFile (env.writeFault proc) s.whitelistFile logFilename procName).out.filter Event.isBlocked = [] := by
        rw [List.filter_eq_nil_iff]
        intro e he
        rw [writeStringToFile_out _ _ _ _ e he]
        simp [Event.isBlocked]
      have he : (writeErrorLine (writeStringToFile (env.writeFault proc) s.whitelistFile logFilename procName).err).filter Event.isBlocked = [] := by
        cases (writeStringToFile (env.writeFault proc) s.whitelistFile logFilename procName).err <;> simp [writeErrorLine, Event.isBlocked]
      have hk : (if s.sendSigKill = true then [Event.sigkillNotice procName proc] else []).filter
          Event.isBlocked = [] := by
        cases s.sendSigKill <;> simp [Event.isBlocked]
      simp only [List.filter_append, hw, he, hk, List.append_nil]
      simp [violations, h, ha, Event.isBlocked]

/-- The violation notices of a pass, in order. -/
theorem block_blocked_filter (env : Env) : ∀ (procs : List Str) (s : State),
    (blockUnauthorizedProcesses env s procs).2.filter Event.isBlocked =
      (violations env s.allowedProcs procs).map (fun v => Event.blocked v.1 v.2)
  | [], s => by simp [blockUnauthorizedProcesses, violations]
  | proc :: rest, s => by
    have ih := block_blocked_filter env rest (evalProc env s proc).1
    rw [(evalProc_frame env s proc).1] at ih
    simp only [blockUnauthorizedProcesses, List.filter_append, ih, evalProc_blocked_filter]
    simp only [violations, List.filterMap_cons, List.filterMap_nil]
    cases getProcessName env proc with
    | none => simp
    | some procName =>
      by_cases ha : procName ∈ s.allowedProcs <;> simp [ha]

theorem mem_violations (env : Env) (allowed : StrSet) (procs : List Str) (procName proc : Str) :
    (procName, proc) ∈ violations env allowed procs ↔
      proc ∈ procs ∧ getProcessName env proc = some procName ∧ procName ∉ allowed := by
  simp only [violations, List.mem_filterMap]
  constructor
  · rintro ⟨p, hp, h⟩
    cases hn : getProcessName env p with
    | none => simp [hn] at h
    | some nm =>
      by_cases ha : nm ∈ allowed
      · simp [hn, ha] at h
      · simp only [hn, ha, if_false, Option.some.injEq, Prod.mk.injEq] at h
        obtain ⟨h1, h2⟩ := h
        subst h1 h2
        exact ⟨hp, hn, ha⟩
  · rintro ⟨hp, hn, ha⟩
    exact ⟨proc, hp, by simp [hn, ha]⟩

/-- The violation notices of a pass. -/
theorem mem_block_blocked (env : Env) (procs : List Str) (s : State) (procName proc : Str) :
    Event.blocked procName proc ∈ (blockUnauthorizedProcesses env s procs).2 ↔
      proc ∈ procs ∧ getProcessName env proc = some procName ∧ procName ∉ s.allowedProcs := by
  rw [← mem_violations]
  have h : Event.blocked procName proc ∈ (blockUnauthorizedProcesses env s procs).2 ↔
      Event.blocked procName proc ∈
        (blockUnauthorizedProcesses env s procs).2.filter Event.isBlocked := by
    simp [List.mem_filter, Event.isBlocked]
  rw [h, block_blocked_filter, List.mem_map]
  constructor
  · rintro ⟨⟨a, b⟩, hv, he⟩
    simp only [Event.blocked.injEq] at he
    obtain ⟨h1, h2⟩ := he
    subst h1 h2
    exact hv
  · intro hv
    exact ⟨(procName, proc), hv, rfl⟩

theorem getRunningProcesses_out (env : Env) : (getRunningProcesses env).2 = [] := by
  unfold getRunningProcesses
  cases env.procDir <;> simp [collectProcs_out]

theorem loopIteration_ok (env : Env) (s : State) (procs : List Str) (out : List Event)
    (h : getRunningProcesses env = (Except.ok procs, out)) :
    loopIteration env s = blockUnauthorizedProcesses env s procs := by
  have ho : out = [] := by
    have := getRunningProcesses_out env
    rw [h] at this
    exact this
  subst ho
  simp [loopIteration, h]

theorem mem_writeErrorLine (err : Option WriteError) (e : Event)
    (h : e ∈ writeErrorLine err) : ∃ w, e = Event.writeError w := by
  cases err with
  | none => simp [writeErrorLine] at h
  | some w => exact ⟨w, by simpa [writeErrorLine] using h⟩

theorem evalProc_no_kill (env : Env) (s : State) (proc : Str) (pid : Int) :
    Event.kill pid ∉ (evalProc env s proc).2 := by
  cases h : getProcessName env proc with
  | none => simp [evalProc, h]
  | some procName =>
    cases ha : s.allowedProcs.has procName with
    | true => simp [evalProc, h, ha]
    | false =>
      rw [evalProc_violation env s proc procName h ha]
      intro hmem
      simp only [List.mem_append, List.mem_singleton] at hmem
      rcases hmem with ((hmem | hmem) | hmem) | hmem
      · cases hmem
      · cases hk : s.sendSigKill <;> simp [hk] at hmem
      · have := writeStringToFile_out _ _ _ _ _ hmem
        cases this
      · obtain ⟨w, hw⟩ := mem_writeErrorLine _ _ hmem
        cases hw

theorem block_no_kill (env : Env) (pid : Int) : ∀ (procs : List Str) (s : State),
    Event.kill pid ∉ (blockUnauthorizedProcesses env s procs).2
  | [], s => by simp [blockUnauthorizedProcesses]
  | proc :: rest, s => by
    simp only [blockUnauthorizedProcesses, List.mem_append, not_or]
    exact ⟨evalProc_no_kill env s proc pid, block_no_kill env pid rest _⟩

theorem evalProc_sigkill (env : Env) (s : State) (proc : Str) (procName pid : Str) :
    Event.sigkillNotice procName pid ∈ (evalProc env s proc).2 ↔
      s.sendSigKill = true ∧ Event.blocked procName pid ∈ (evalProc env s proc).2 := by
  cases h : getProcessName env proc with
  | none => simp [evalProc, h]
  | some nm =>
    cases ha : s.allowedProcs.has nm with
    | true => simp [evalProc, h, ha]
    | false =>
      rw [evalProc_violation env s proc nm h ha]
      have hw : ∀ e, e ∈ (writeStringToFile (env.writeFault proc) s.whitelistFile logFilename nm).out → e = Event.added nm logFilename :=
        writeStringToFile_out _ _ _ _
      have he : ∀ e, e ∈ writeErrorLine (writeStringToFile (env.writeFault proc)
          s.whitelistFile logFilename nm).err → ∃ w, e = Event.writeError w :=
        fun e => mem_writeErrorLine _ e
      cases hk : s.sendSigKill with
      | false =>
        simp only [Bool.false_eq_true, if_false, List.append_nil, false_and, iff_false,
          List.mem_append, List.mem_singleton, not_or]
        refine ⟨⟨by simp, ?_⟩, ?_⟩
        · intro hmem; cases hw _ hmem
        · intro hmem; obtain ⟨w, hw2⟩ := he _ hmem; cases hw2
      | true =>
        simp only [if_true, true_and, List.mem_append, List.mem_singleton, List.mem_cons,
          List.singleton_append]
        constructor
        · rintro (((hmem | hmem) | hmem) | hmem)
          · cases hmem
          · rcases hmem with hmem | hmem
            · cases hmem; exact Or.inl (Or.inl (Or.inl rfl))
            · simp at hmem
          · cases hw _ hmem
          · obtain ⟨w, hw2⟩ := he _ hmem; cases hw2
        · rintro (((hmem | hmem) | hmem) | hmem)
          · cases hmem; exact Or.inl (Or.inl (Or.inr (Or.inl rfl)))
          · rcases hmem with hmem | hmem
            · cases hmem
            · simp at hmem
          · cases hw _ hmem
          · obtain ⟨w, hw2⟩ := he _ hmem; cases hw2

/-- The termination notices of a pass. -/
theorem block_sigkill (env : Env) (procName pid : Str) : ∀ (procs : List Str) (s : State),
    Event.sigkillNotice procName pid ∈ (blockUnauthorizedProcesses env s procs).2 ↔
      s.sendSigKill = true ∧
        Event.blocked procName pid ∈ (blockUnauthorizedProcesses env s procs).2
  | [], s => by simp [blockUnauthorizedProcesses]
  | proc :: rest, s => by
    have ih := block_sigkill env procName pid rest (evalProc env s proc).1
    rw [(evalProc_frame env s proc).2] at ih
    simp only [blockUnauthorizedProcesses, List.mem_append, ih, evalProc_sigkill]
    tauto

theorem terminateProcess_events (env : Env) (pid : Str) :
    terminateProcess env pid ≠ [] ∧
      ∀ e ∈ terminateProcess env pid, e.ofTerminate = true := by
  unfold terminateProcess
  cases Atoi pid with
  | none => simp [Event.ofTerminate]
  | some pidInt =>
    cases hk : env.killOk pidInt <;> simp [hk, Event.ofTerminate]

theorem evalProc_events (env : Env) (s : State) (proc : Str) :
    ∀ e ∈ (evalProc env s proc).2, e.ofTerminate = false := by
  intro e hmem
  cases h : getProcessName env proc with
  | none =>
    rw [evalProc_unresolved env s proc h] at hmem
    simp only [List.mem_singleton] at hmem
    subst hmem
    rfl
  | some procName =>
    cases ha : s.allowedProcs.has procName with
    | true =>
      rw [evalProc_allowed env s proc procName h ha] at hmem
      simp at hmem
    | false =>
      rw [evalProc_violation env s proc procName h ha] at hmem
      simp only [List.mem_append, List.mem_singleton] at hmem
      rcases hmem with ((hmem | hmem) | hmem) | hmem
      · subst hmem; rfl
      · cases hk : s.sendSigKill
        · simp [hk] at hmem
        · simp only [hk, if_true, List.mem_singleton] at hmem
          subst hmem; rfl
      · rw [writeStringToFile_out _ _ _ _ _ hmem]; rfl
      · obtain ⟨w, hw⟩ := mem_writeErrorLine _ _ hmem
        subst hw; rfl

/-- Nothing that `terminateProcess` does occurs in a pass. -/
theorem block_events (env : Env) : ∀ (procs : List Str) (s : State),
    ∀ e ∈ (blockUnauthorizedProcesses env s procs).2, e.ofTerminate = false
  | [], s => by simp [blockUnauthorizedProcesses]
  | proc :: rest, s => by
    intro e hmem
    simp only [blockUnauthorizedProcesses, List.mem_append] at hmem
    rcases hmem with hmem | hmem
    · exact evalProc_events env s proc e hmem
    · exact block_events env rest _ e hmem

/-! ### The escalation flag -/

/-- No step resets the flag. -/
theorem step_keeps_flag (s t : State) (h : Step s t) (hs : s.sendSigKill = true) :
    t.sendSigKill = true := by
  cases h with
  | timerFires => rfl
  | iteration env =>
    unfold loopIteration
    rcases hg : getRunningProcesses env with ⟨r, out⟩
    cases r with
    | error e => simpa using hs
    | ok procs => simpa [(block_frame env procs s).2] using hs
  | evaluate env _ proc => rw [(evalProc_frame env s proc).2]; exact hs
  | append fault _ data => exact hs
  | fileChanged _ file => exact hs

theorem steps_keep_flag (s t : State) (h : Relation.ReflTransGen Step s t)
    (hs : s.sendSigKill = true) : t.sendSigKill = true := by
  induction h with
  | refl => exact hs
  | tail _ hstep ih => exact step_keeps_flag _ _ hstep ih

theorem getProcessName_congr (env env2 : Env) (h : env2.readFile = env.readFile) (proc : Str) :
    getProcessName env2 proc = getProcessName env proc := by
  simp [getProcessName, h]

/-! ### Further properties -/

/-- The loop bound of `loadWhiteList` is never reached. -/
theorem loadWhiteList_fuel (file : Option Str) : loadWhiteList file ≠ LoadResult.outOfFuel := by
  cases file with
  | none => simp [loadWhiteList]
  | some content =>
    rw [loadWhiteList_eq]
    split <;> simp

/-- `loadWhiteList` stops on a read error exactly when one of the lines of the file
fills the scanner's buffer. -/
theorem loadWhiteList_readFailed (content : Str) :
    loadWhiteList (some content) = LoadResult.readFailed ↔
      ∃ l ∈ lines content, MaxScanTokenSize ≤ byteLen l := by
  rw [loadWhiteList_eq]
  by_cases h : ∀ l ∈ lines content, byteLen l < MaxScanTokenSize
  · rw [if_pos h]
    constructor
    · intro h0; cases h0
    · rintro ⟨l, hl, hlen⟩
      exact absurd (h l hl) (by omega)
  · rw [if_neg h]
    push_neg at h
    exact ⟨fun _ => h, fun _ => rfl⟩

/-- The file written by the program and the file read by `loadWhiteList` are the same. -/
theorem logFilename_eq : logFilename = whiteListFile := rfl

/-- When the file is a whole number of lines, a successful `writeStringToFile` keeps
every entry that `loadWhiteList` reads from it. -/
theorem write_keeps_entries (fault : Fault) (c data k : Str) (hc : Terminated c)
    (hok : (writeStringToFile fault (some c) logFilename data).err = none)
    (hk : k ∈ insertLines [] (lines c)) :
    k ∈ insertLines []
      (lines (((writeStringToFile fault (some c) logFilename data).file).getD [])) := by
  rw [writeStringToFile_ok fault (some c) logFilename data hok]
  split
  · exact hk
  · have hl : lines (c ++ (data ++ ['\n'])) = lines c ++ lines (data ++ ['\n']) := by
      rcases hc with hc | hc
      · subst hc; simp [lines]
      · exact lines_append_of_terminated c _ hc
    simp only [Option.getD_some, hl]
    rw [mem_insertLines] at hk ⊢
    rcases hk with hk | ⟨h1, l, hl1, hl2⟩
    · exact Or.inl hk
    · exact Or.inr ⟨h1, l, List.mem_append_left _ hl1, hl2⟩

/-- The numeric test of `isNumericDir` is `strconv.Atoi`: on names that procfs never
lists it differs from "decimal digits only", a signed number is kept and a number
beyond the range of `int` is dropped. -/
theorem getRunningProcesses_oddListing :
    getRunningProcesses oddListing = (Except.ok ["+1000".toList], []) ∧
    ¬ ProcfsName "+1000".toList ∧ ¬ ProcfsName "9223372036854775808".toList := by
  refine ⟨rfl, ?_, ?_⟩
  · intro h; exact h.1 rfl
  · intro h; exact absurd (h.2 (by decide)) (by decide)

/-- Sample values of the library functions. -/
theorem library_samples :
    lines "a\nbc\n\nd".toList = ["a".toList, "bc".toList, [], "d".toList] ∧
    loadWhiteList (some " init \r\nbash\n\n bash".toList)
      = LoadResult.loaded ["init".toList, "bash".toList] ∧
    Atoi "+1000".toList = some 1000 ∧
    Atoi "-12".toList = some (-12) ∧
    Atoi "01000".toList = some 1000 ∧
    Atoi "12a".toList = none ∧
    Atoi "+".toList = none ∧
    Atoi "9223372036854775808".toList = none ∧
    Atoi "9223372036854775807".toList = some 9223372036854775807 ∧
    Atoi "-9223372036854775808".toList = some (-9223372036854775808) ∧
    TrimSpace " \tbash \r\n".toList = "bash".toList ∧
    Contains "evilness\n".toList "evil".toList = true ∧
    Contains "bash\n".toList "".toList = true ∧
    Contains "".toList "bash".toList = false := by
  decide

/-! ## The claims -/

/-- Claim C1. When `loadWhiteList` returns (no line of the file fills the scanner's
buffer), it returns a map in which the lookup done by `blockUnauthorizedProcesses`
succeeds for a name `n` exactly when `n` is not empty and equals some line of the file
after that line is trimmed of leading and trailing white space; a name that no trimmed
line equals (a substring, a prefix, a case variant of a line) is not in the map. -/
theorem C1_allowlist_exact_match (content : Str)
    (hshort : ∀ l ∈ lines content, byteLen l < MaxScanTokenSize) :
    ∃ whiteList, loadWhiteList (some content) = LoadResult.loaded whiteList ∧
      (∀ n : Str, whiteList.has n = true ↔ n ≠ [] ∧ ∃ l ∈ lines content, TrimSpace l = n) ∧
      (∀ n : Str, (∀ l ∈ lines content, TrimSpace l ≠ n) → whiteList.has n = false) := by
  refine ⟨insertLines [] (lines content), ?_, ?_, ?_⟩
  · rw [loadWhiteList_eq, if_pos hshort]
  · intro n
    simp [StrSet.has, mem_insertLines]
  · intro n hn
    have : n ∉ insertLines [] (lines content) := by
      rw [mem_insertLines]
      rintro (h | ⟨_, l, hl, hl2⟩)
      · simp at h
      · exact hn l hl hl2
    simp [StrSet.has, this]

/-- Claim C1 at the file with the lines " init ", "bash", "" and "bash": the map holds
"init" and "bash"; "bas", "ash", "BASH", " init " and "" are not allowed. -/
theorem C1_witness :
    (∀ l ∈ lines " init \r\nbash\n\nbash".toList, byteLen l < MaxScanTokenSize) ∧
    (∃ whiteList, loadWhiteList (some " init \r\nbash\n\nbash".toList)
        = LoadResult.loaded whiteList ∧
      (∀ n : Str, whiteList.has n = true ↔
        n ≠ [] ∧ ∃ l ∈ lines " init \r\nbash\n\nbash".toList, TrimSpace l = n) ∧
      (∀ n : Str, (∀ l ∈ lines " init \r\nbash\n\nbash".toList, TrimSpace l ≠ n) →
        whiteList.has n = false)) ∧
    loadWhiteList (some " init \r\nbash\n\nbash".toList)
      = LoadResult.loaded ["init".toList, "bash".toList] ∧
    StrSet.has ["init".toList, "bash".toList] "bash".toList = true ∧
    StrSet.has ["init".toList, "bash".toList] "bas".toList = false ∧
    StrSet.has ["init".toList, "bash".toList] "ash".toList = false ∧
    StrSet.has ["init".toList, "bash".toList] "BASH".toList = false ∧
    StrSet.has ["init".toList, "bash".toList] " init ".toList = false ∧
    StrSet.has ["init".toList, "bash".toList] [] = false :=
  ⟨by decide, C1_allowlist_exact_match _ (by decide), by decide, by decide, by decide,
    by decide, by decide, by decide, by decide⟩

/-- Claim C2. For every entry `s` that procfs lists under `/proc` and that exists
there, `getRunningProcesses` succeeds, prints nothing, and returns `s` if and only if
`s` is purely numeric (not empty, decimal digits only) and its value is at least 1000.
An entry whose value is below 1000 is never returned, whatever the name of its process:
the result does not change when the files under `/proc` do. -/
theorem C2_enumeration_filter (env : Env) (files : List Str) (s : Str)
    (hdir : env.procDir = DirResult.names files) (hs : s ∈ files)
    (hstat : env.stat (procPath s) = true) (hname : ProcfsName s) :
    ∃ procs, getRunningProcesses env = (Except.ok procs, []) ∧
      (s ∈ procs ↔ (s ≠ [] ∧ ∀ c ∈ s, c.isDigit = true) ∧ 1000 ≤ decimalValue s) ∧
      ((∀ c ∈ s, c.isDigit = true) → decimalValue s < 1000 → s ∉ procs) ∧
      (∀ v : Int, Atoi s = some v → v < 1000 → s ∉ procs) ∧
      (∀ env2 : Env, env2.procDir = env.procDir → env2.stat = env.stat →
        getRunningProcesses env2 = (Except.ok procs, [])) := by
  obtain ⟨procs, hrun, hmem, hlow⟩ := getRunningProcesses_mem env files s hdir hs hstat
  have hiff : s ∈ procs ↔ (s ≠ [] ∧ ∀ c ∈ s, c.isDigit = true) ∧ 1000 ≤ decimalValue s :=
    hmem.trans (procfsName_numeric s hname)
  refine ⟨procs, hrun, hiff, ?_, hlow, ?_⟩
  · intro _ hlt hin
    have := (hiff.1 hin).2
    omega
  · intro env2 h1 h2
    rw [getRunningProcesses_congr env env2 h1 h2, hrun]

/-- Claim C2 at the example snapshot: the entry "1050" is purely numeric and worth at
least 1000, and it is returned; the entry "1" is worth less and the entry "self" is not
numeric, and they are not returned. -/
theorem C2_witness :
    (∃ procs, getRunningProcesses snapshot = (Except.ok procs, []) ∧
      ("1050".toList ∈ procs ↔
        ("1050".toList ≠ [] ∧ ∀ c ∈ "1050".toList, c.isDigit = true) ∧
          1000 ≤ decimalValue "1050".toList) ∧
      ((∀ c ∈ "1050".toList, c.isDigit = true) → decimalValue "1050".toList < 1000 →
        "1050".toList ∉ procs) ∧
      (∀ v : Int, Atoi "1050".toList = some v → v < 1000 → "1050".toList ∉ procs) ∧
      (∀ env2 : Env, env2.procDir = snapshot.procDir → env2.stat = snapshot.stat →
        getRunningProcesses env2 = (Except.ok procs, []))) ∧
    ProcfsName "1".toList ∧ ProcfsName "self".toList ∧
    getRunningProcesses snapshot = (Except.ok ["1050".toList, "2200".toList], []) ∧
    decimalValue "1050".toList = 1050 ∧ decimalValue "1".toList = 1 ∧
    ¬ (∀ c ∈ "self".toList, c.isDigit = true) :=
  ⟨C2_enumeration_filter snapshot _ "1050".toList rfl (by decide) rfl
      ⟨by decide, fun _ => by decide⟩,
    ⟨by decide, fun _ => by decide⟩, ⟨by decide, fun h => absurd h (by decide)⟩,
    rfl, by decide, by decide, by decide⟩

/-- Claim C3, as stated, fails: no line of the log "evilness" equals "evil", both calls
of `writeStringToFile` with "evil" succeed, and afterwards the log is unchanged and has
no line equal to "evil". -/
theorem C3_counterexample :
    (∀ l ∈ lines "evilness\n".toList, l ≠ "evil".toList) ∧
    (writeStringToFile Fault.noFault (some "evilness\n".toList) logFilename
      "evil".toList).err = none ∧
    (writeStringToFile Fault.noFault
      (writeStringToFile Fault.noFault (some "evilness\n".toList) logFilename
        "evil".toList).file logFilename "evil".toList).err = none ∧
    (writeStringToFile Fault.noFault
      (writeStringToFile Fault.noFault (some "evilness\n".toList) logFilename
        "evil".toList).file logFilename "evil".toList).file = some "evilness\n".toList ∧
    (lines "evilness\n".toList).count "evil".toList = 0 := by
  decide

/-- Claim C3, amended. When the log is a whole number of lines (empty, absent, or ended
by a newline), and the name `n` has no newline in it and does not occur as a substring
of the log, then after two successful calls of `writeStringToFile` with `n` the log is
the old content followed by `n` and a newline, and exactly one of its lines equals `n`. -/
theorem C3_double_write (f1 f2 : Fault) (file : Option Str) (filename n : Str)
    (hc : Terminated (file.getD [])) (hn : '\n' ∉ n) (hsub : ¬ n <:+: file.getD [])
    (h1 : (writeStringToFile f1 file filename n).err = none)
    (h2 : (writeStringToFile f2 (writeStringToFile f1 file filename n).file filename n).err
      = none) :
    (writeStringToFile f2 (writeStringToFile f1 file filename n).file filename n).file
        = some (file.getD [] ++ n ++ ['\n']) ∧
      (lines (file.getD [] ++ n ++ ['\n'])).count n = 1 := by
  have hnc : ¬ Contains (file.getD []) n = true := fun h => hsub ((Contains_iff _ _).1 h)
  have e1 : (writeStringToFile f1 file filename n).file
      = some (file.getD [] ++ (n ++ ['\n'])) := by
    rw [writeStringToFile_ok f1 file filename n h1, if_neg hnc]
  rw [e1] at h2 ⊢
  have hc2 : Contains ((some (file.getD [] ++ (n ++ ['\n'])) : Option Str).getD []) n
      = true := by
    rw [Contains_iff]
    exact ⟨file.getD [], ['\n'], by simp⟩
  constructor
  · rw [writeStringToFile_ok f2 _ filename n h2, if_pos hc2]
    simp
  · rw [lines_append_line _ n hc hn, List.count_append]
    have : n ∉ lines (file.getD []) := fun h => hsub (mem_lines_sub _ _ h)
    simp [List.count_eq_zero_of_not_mem this]

/-- Claim C3, amended, at the log with the lines "init" and "bash" and the name "evil". -/
theorem C3_witness :
    (writeStringToFile Fault.noFault
        (writeStringToFile Fault.noFault (some "init\nbash\n".toList) logFilename
          "evil".toList).file logFilename "evil".toList).file
      = some ("init\nbash\n".toList ++ "evil".toList ++ ['\n']) ∧
    (lines ("init\nbash\n".toList ++ "evil".toList ++ ['\n'])).count "evil".toList = 1 :=
  C3_double_write Fault.noFault Fault.noFault (some "init\nbash\n".toList) logFilename
    "evil".toList (by decide) (by decide) (by decide) (by decide) (by decide)

/-- Claim C4. A call of `writeStringToFile` that returns no error leaves the file as it
was when the name occurs as a substring of its content, and otherwise leaves the old
content followed by the name and one newline; either way the old content is a prefix
of the new one. -/
theorem C4_write_contract (fault : Fault) (file : Option Str) (filename data : Str)
    (hok : (writeStringToFile fault file filename data).err = none) :
    (data <:+: file.getD [] → (writeStringToFile fault file filename data).file = file) ∧
    (¬ data <:+: file.getD [] →
      (writeStringToFile fault file filename data).file
        = some (file.getD [] ++ data ++ ['\n'])) ∧
    file.getD [] <+: ((writeStringToFile fault file filename data).file).getD [] := by
  rw [writeStringToFile_ok fault file filename data hok]
  by_cases hc : Contains (file.getD []) data = true
  · have hin := (Contains_iff _ _).1 hc
    simp [hc, hin]
  · have hin : ¬ data <:+: file.getD [] := fun h => hc ((Contains_iff _ _).2 h)
    simp [hc, hin]

/-- Claim C4 at the file "bash" (one line) with the names "sh", a substring, and
"zsh", which is appended. -/
theorem C4_witness :
    (writeStringToFile Fault.noFault (some "bash\n".toList) logFilename "sh".toList).file
      = some "bash\n".toList ∧
    (writeStringToFile Fault.noFault (some "bash\n".toList) logFilename "zsh".toList).file
      = some "bash\nzsh\n".toList :=
  ⟨(C4_write_contract Fault.noFault (some "bash\n".toList) logFilename "sh".toList
      (by decide)).1 (by decide),
    (C4_write_contract Fault.noFault (some "bash\n".toList) logFilename "zsh".toList
      (by decide)).2.1 (by decide)⟩

/-- Claim C5. When the enumeration succeeds, it prints nothing and the iteration is the
pass of `blockUnauthorizedProcesses` over the enumerated PIDs; in whatever order the
PIDs are visited, the violation notices of the pass are exactly, one each and in the
order of the visit, those of the visited PIDs whose name is resolved and is not a key
of the allow-list, each naming the process and its PID, and a PID whose name is allowed
changes nothing and prints nothing. In the example snapshot (allow-list init and bash;
PID 1 init, PID 1050 bash, PID 2200 evil) PID 1 is not enumerated, PID 1050 causes
nothing, and PID 2200 causes a violation notice and the one new line "evil" at the end
of the log. -/
theorem C5_violations_reported :
    (∀ (env : Env) (s : State) (procs : List Str) (out : List Event),
      getRunningProcesses env = (Except.ok procs, out) →
        out = [] ∧
        loopIteration env s = blockUnauthorizedProcesses env s procs ∧
        ∀ order : List Str, order.Perm procs →
          (blockUnauthorizedProcesses env s order).2.filter Event.isBlocked
              = (violations env s.allowedProcs order).map (fun v => Event.blocked v.1 v.2) ∧
          (∀ procName proc : Str,
            Event.blocked procName proc ∈ (blockUnauthorizedProcesses env s order).2 ↔
              proc ∈ procs ∧ getProcessName env proc = some procName ∧
                s.allowedProcs.has procName = false) ∧
          (∀ (st : State) (procName proc : Str), getProcessName env proc = some procName →
            st.allowedProcs.has procName = true → evalProc env st proc = (st, []))) ∧
    (getRunningProcesses snapshot = (Except.ok ["1050".toList, "2200".toList], []) ∧
      loadWhiteList startState.whitelistFile = LoadResult.loaded startState.allowedProcs ∧
      startState.allowedProcs = ["init".toList, "bash".toList] ∧
      getProcessName snapshot "1".toList = some "init".toList ∧
      evalProc snapshot startState "1050".toList = (startState, []) ∧
      loopIteration snapshot startState =
        ({ startState with whitelistFile := some "init\nbash\nevil\n".toList },
          [Event.blocked "evil".toList "2200".toList,
            Event.added "evil".toList logFilename]) ∧
      blockUnauthorizedProcesses snapshot startState ["2200".toList, "1050".toList] =
        ({ startState with whitelistFile := some "init\nbash\nevil\n".toList },
          [Event.blocked "evil".toList "2200".toList,
            Event.added "evil".toList logFilename]) ∧
      lines "init\nbash\nevil\n".toList = lines "init\nbash\n".toList ++ ["evil".toList]) := by
  refine ⟨?_, ?_, ?_, ?_, ?_, ?_, ?_, ?_, ?_⟩
  · intro env s procs out h
    have ho : out = [] := by
      have := getRunningProcesses_out env
      rw [h] at this
      exact this
    refine ⟨ho, loopIteration_ok env s procs out h, ?_⟩
    intro order hperm
    refine ⟨block_blocked_filter env order s, ?_, ?_⟩
    · intro procName proc
      rw [mem_block_blocked, hperm.mem_iff]
      simp [StrSet.has]
    · intro st procName proc hn ha
      exact evalProc_allowed env st proc procName hn ha
  · rfl
  · decide
  · decide
  · decide
  · decide
  · decide
  · decide
  · decide

/-- Claim C5 at the example snapshot, visited in the order 2200, 1050. -/
theorem C5_witness :
    (blockUnauthorizedProcesses snapshot startState
        ["2200".toList, "1050".toList]).2.filter Event.isBlocked
      = (violations snapshot startState.allowedProcs ["2200".toList, "1050".toList]).map
          (fun v => Event.blocked v.1 v.2) ∧
    (∀ procName proc : Str,
      Event.blocked procName proc ∈
          (blockUnauthorizedProcesses snapshot startState ["2200".toList, "1050".toList]).2 ↔
        proc ∈ ["1050".toList, "2200".toList] ∧ getProcessName snapshot proc = some procName ∧
          startState.allowedProcs.has procName = false) ∧
    (∀ (st : State) (procName proc : Str), getProcessName snapshot proc = some procName →
      st.allowedProcs.has procName = true → evalProc snapshot st proc = (st, [])) :=
  (C5_violations_reported.1 snapshot startState ["1050".toList, "2200".toList] [] rfl).2.2
    ["2200".toList, "1050".toList] (List.Perm.swap _ _ _)

/-- Claim C6. When a PID is evaluated whose resolved name is not a key of the
allow-list, the termination notice is printed exactly when `sendSigKill` is true: with
the flag false the output is the violation notice followed by what the write to the log
prints, with the flag true the termination notice comes right after the violation
notice; in both cases the log is what `writeStringToFile` leaves, and no signal is
sent. The same holds for any pass: a termination notice is printed for the violations
of the pass exactly when the flag is true, and a pass sends no signal; `terminateProcess`
always prints a line or sends a signal, and nothing of what it does occurs in a pass. -/
theorem C6_escalation_gates_notice (env : Env) (s : State) (proc procName : Str)
    (hname : getProcessName env proc = some procName)
    (hviol : s.allowedProcs.has procName = false) :
    (Event.sigkillNotice procName proc ∈ (evalProc env s proc).2 ↔ s.sendSigKill = true) ∧
    (s.sendSigKill = false →
      (evalProc env s proc).2 =
        [Event.blocked procName proc]
          ++ (writeStringToFile (env.writeFault proc) s.whitelistFile
              logFilename procName).out
          ++ writeErrorLine (writeStringToFile (env.writeFault proc) s.whitelistFile
              logFilename procName).err) ∧
    (s.sendSigKill = true →
      (evalProc env s proc).2 =
        [Event.blocked procName proc, Event.sigkillNotice procName proc]
          ++ (writeStringToFile (env.writeFault proc) s.whitelistFile
              logFilename procName).out
          ++ writeErrorLine (writeStringToFile (env.writeFault proc) s.whitelistFile
              logFilename procName).err) ∧
    (evalProc env s proc).1.whitelistFile =
      (writeStringToFile (env.writeFault proc) s.whitelistFile logFilename procName).file ∧
    (∀ pid : Int, Event.kill pid ∉ (evalProc env s proc).2) ∧
    (∀ (procs : List Str) (name pid : Str),
      Event.sigkillNotice name pid ∈ (blockUnauthorizedProcesses env s procs).2 ↔
        s.sendSigKill = true ∧
          Event.blocked name pid ∈ (blockUnauthorizedProcesses env s procs).2) ∧
    (∀ (procs : List Str) (pid : Int),
      Event.kill pid ∉ (blockUnauthorizedProcesses env s procs).2) ∧
    (∀ (procs : List Str) (pid : Str),
      terminateProcess env pid ≠ [] ∧
        ∀ e ∈ terminateProcess env pid, e ∉ (blockUnauthorizedProcesses env s procs).2) := by
  refine ⟨?_, ?_, ?_, ?_, ?_, ?_, ?_, ?_⟩
  · rw [evalProc_sigkill]
    have : Event.blocked procName proc ∈ (evalProc env s proc).2 := by
      rw [evalProc_violation env s proc procName hname hviol]
      simp
    simp [this]
  · intro hk
    rw [evalProc_violation env s proc procName hname hviol]
    simp [hk]
  · intro hk
    rw [evalProc_violation env s proc procName hname hviol]
    simp [hk]
  · rw [evalProc_violation env s proc procName hname hviol]
  · exact evalProc_no_kill env s proc
  · intro procs name pid
    exact block_sigkill env name pid procs s
  · intro procs pid
    exact block_no_kill env pid procs s
  · intro procs pid
    refine ⟨(terminateProcess_events env pid).1, ?_⟩
    intro e he hmem
    have h1 := (terminateProcess_events env pid).2 e he
    rw [block_events env procs s e hmem] at h1
    exact absurd h1 (by simp)

/-- Claim C6 at PID 2200 of the example snapshot: with the flag false the output is the
violation notice and the line about the append, with the flag true the termination
notice stands between them; the log gets the line "evil" both times. -/
theorem C6_witness :
    (evalProc snapshot startState "2200".toList).2
      = [Event.blocked "evil".toList "2200".toList] ++
          [Event.added "evil".toList logFilename] ++ [] ∧
    (evalProc snapshot { startState with sendSigKill := true } "2200".toList).2
      = [Event.blocked "evil".toList "2200".toList,
          Event.sigkillNotice "evil".toList "2200".toList] ++
          [Event.added "evil".toList logFilename] ++ [] ∧
    (evalProc snapshot startState "2200".toList).1.whitelistFile
      = some "init\nbash\nevil\n".toList ∧
    (evalProc snapshot { startState with sendSigKill := true } "2200".toList).1.whitelistFile
      = some "init\nbash\nevil\n".toList :=
  ⟨(C6_escalation_gates_notice snapshot startState "2200".toList "evil".toList
      (by decide) (by decide)).2.1 rfl,
    (C6_escalation_gates_notice snapshot { startState with sendSigKill := true }
      "2200".toList "evil".toList (by decide) (by decide)).2.2.1 rfl,
    by decide, by decide⟩

/-- Claim C7. The flag `sendSigKill` is false in every initial state; no step of the
program (the timer firing, a loop iteration, the evaluation of a PID, an append to the
log, a change of the file from outside) takes it from true to false; hence from a
reachable state in which it is true, every later state has it true. -/
theorem C7_escalation_monotone :
    (∀ s : State, Init s → s.sendSigKill = false) ∧
    (∀ s t : State, Step s t → s.sendSigKill = true → t.sendSigKill = true) ∧
    (∀ s t : State, Reachable s → Relation.ReflTransGen Step s t →
      s.sendSigKill = true → t.sendSigKill = true) := by
  refine ⟨?_, step_keeps_flag, ?_⟩
  · rintro s ⟨content, whiteList, _, rfl⟩
    rfl
  · intro s t _ hst hs
    exact steps_keep_flag s t hst hs

/-- Claim C7 on a run of the example: the start state is initial with the flag false,
the timer fires, and after a loop iteration the flag is still true. -/
theorem C7_witness :
    Init startState ∧
    startState.sendSigKill = false ∧
    Reachable { startState with sendSigKill := true } ∧
    (loopIteration snapshot { startState with sendSigKill := true }).1.sendSigKill = true :=
  have hinit : Init startState := ⟨"init\nbash\n".toList, _, by decide, rfl⟩
  have hreach : Reachable { startState with sendSigKill := true } :=
    ⟨startState, hinit, Relation.ReflTransGen.single (Step.timerFires startState)⟩
  ⟨hinit, C7_escalation_monotone.1 startState hinit, hreach,
    C7_escalation_monotone.2.2 { startState with sendSigKill := true } _ hreach
      (Relation.ReflTransGen.single
        (Step.iteration snapshot { startState with sendSigKill := true })) rfl⟩

/-- Claim C8, as stated, fails: the name of PID 4242 cannot be resolved, and the pass
over it prints a line, the error notice of PID 4242. -/
theorem C8_counterexample :
    getProcessName snapshot "4242".toList = none ∧
    (blockUnauthorizedProcesses snapshot startState ["4242".toList]).2
      = [Event.nameError "4242".toList] ∧
    (blockUnauthorizedProcesses snapshot startState ["4242".toList]).2 ≠ [] := by
  decide

/-- Claim C8, amended. A PID whose name cannot be resolved prints one line, the error
notice naming it, and nothing else happens for it: the state (hence the log) is
unchanged and no violation notice is printed. The other PIDs of the list are evaluated
as if it were absent: the pass ends in the same state, and its output is the output of
the pass without the PID with that one error notice at the place of the PID. -/
theorem C8_unresolved_pid_skipped (env : Env) (s : State) (pre post : List Str) (proc : Str)
    (hfail : getProcessName env proc = none) :
    evalProc env s proc = (s, [Event.nameError proc]) ∧
    (blockUnauthorizedProcesses env s (pre ++ proc :: post)).1
      = (blockUnauthorizedProcesses env s (pre ++ post)).1 ∧
    (blockUnauthorizedProcesses env s (pre ++ post)).2
      = (blockUnauthorizedProcesses env s pre).2
        ++ (blockUnauthorizedProcesses env (blockUnauthorizedProcesses env s pre).1 post).2 ∧
    (blockUnauthorizedProcesses env s (pre ++ proc :: post)).2
      = (blockUnauthorizedProcesses env s pre).2 ++ [Event.nameError proc]
        ++ (blockUnauthorizedProcesses env (blockUnauthorizedProcesses env s pre).1 post).2 := by
  have he := evalProc_unresolved env
  refine ⟨he s proc hfail, ?_, ?_, ?_⟩
  · rw [block_append, block_append]
    simp only [blockUnauthorizedProcesses, he _ proc hfail]
  · rw [block_append]
  · rw [block_append]
    simp only [blockUnauthorizedProcesses, he _ proc hfail, List.append_assoc]

/-- Claim C8, amended, at the example snapshot with the vanished PID 4242 between the
PIDs 1050 and 2200. -/
theorem C8_witness :
    (blockUnauthorizedProcesses snapshot startState
        (["1050".toList] ++ "4242".toList :: ["2200".toList])).1
      = (blockUnauthorizedProcesses snapshot startState (["1050".toList] ++ ["2200".toList])).1 ∧
    (blockUnauthorizedProcesses snapshot startState
        (["1050".toList] ++ "4242".toList :: ["2200".toList])).2
      = [Event.nameError "4242".toList, Event.blocked "evil".toList "2200".toList,
          Event.added "evil".toList logFilename] ∧
    (blockUnauthorizedProcesses snapshot startState (["1050".toList] ++ ["2200".toList])).2
      = [Event.blocked "evil".toList "2200".toList, Event.added "evil".toList logFilename] :=
  ⟨(C8_unresolved_pid_skipped snapshot startState ["1050".toList] ["2200".toList]
      "4242".toList (by decide)).2.1, by decide, by decide⟩

/-- Claim C9 fails on the code. With `whitelist.txt` holding "bash" without a final
newline, `loadWhiteList` accepts "bash"; the append of the violation "evil" leaves the
single line "bashevil", from which `loadWhiteList` accepts "bashevil" only: the entry
"bash" is lost. -/
theorem C9_append_merges_last_line :
    loadWhiteList (some "bash".toList) = LoadResult.loaded ["bash".toList] ∧
    writeStringToFile Fault.noFault (some "bash".toList) logFilename "evil".toList
      = ⟨none, some "bashevil\n".toList, [Event.added "evil".toList logFilename]⟩ ∧
    loadWhiteList (some "bashevil\n".toList) = LoadResult.loaded ["bashevil".toList] ∧
    StrSet.has ["bash".toList] "bash".toList = true ∧
    StrSet.has ["bashevil".toList] "bash".toList = false := by
  decide

/-- Claim C10. A pass of `blockUnauthorizedProcesses` leaves `allowedProcs` and
`sendSigKill` as they were, whatever the list of PIDs. Hence a violation notice printed
by a pass is printed again by the next pass over the same PIDs with the same names,
whatever the first pass wrote to `whitelist.txt`. -/
theorem C10_pass_frame (env : Env) (s : State) (procs : List Str) :
    (blockUnauthorizedProcesses env s procs).1.allowedProcs = s.allowedProcs ∧
    (blockUnauthorizedProcesses env s procs).1.sendSigKill = s.sendSigKill ∧
    (∀ (env2 : Env) (procName proc : Str), env2.readFile = env.readFile →
      Event.blocked procName proc ∈ (blockUnauthorizedProcesses env s procs).2 →
      Event.blocked procName proc ∈
        (blockUnauthorizedProcesses env2 (blockUnauthorizedProcesses env s procs).1 procs).2) := by
  refine ⟨(block_frame env procs s).1, (block_frame env procs s).2, ?_⟩
  intro env2 procName proc hsnap h
  rw [mem_block_blocked] at h ⊢
  rw [(block_frame env procs s).1, getProcessName_congr env env2 hsnap]
  exact h

/-- Claim C10 at the example snapshot: the first pass appends "evil" to the file, and
the second pass over the same snapshot reports PID 2200 again. -/
theorem C10_witness :
    (blockUnauthorizedProcesses snapshot startState ["1050".toList, "2200".toList]).1.whitelistFile
      = some "init\nbash\nevil\n".toList ∧
    Event.blocked "evil".toList "2200".toList ∈
      (blockUnauthorizedProcesses snapshot
        (blockUnauthorizedProcesses snapshot startState ["1050".toList, "2200".toList]).1
        ["1050".toList, "2200".toList]).2 :=
  ⟨by decide,
    (C10_pass_frame snapshot startState ["1050".toList, "2200".toList]).2.2 snapshot
      "evil".toList "2200".toList rfl (by decide)⟩

end AppControl
